import Mathlib

/- Verification of the log discovery, merge, and rendering engine of
`scripts/read_last_log.py`: a multi-agent conversation log viewer that locates
per-agent JSONL files, tolerantly parses them, merges them into one
timestamp-ordered timeline and renders the result either grouped by agent or
as a flat timeline.

The shallow embedding below translates the Python functions into Lean.
Python `json.loads` and `datetime.fromisoformat` are standard-library calls,
not code of this repository; they are modelled as parameters
`loads : String → Option Json` (`none` = `JSONDecodeError`) and
`fromiso : String → Option Int` (`none` = `ValueError`; instants are
modelled as integers, which preserves the order structure the program relies
on). File modification times are modelled as natural numbers (POSIX mtimes
are non-negative), and a directory listing as a list of
(filename, mtime) pairs, with `none` standing for an absent directory. -/

namespace ReadLastLog

/- ------------------------------------------------------------------
JSON values.  A mutual inductive avoids nesting `List` inside the type so
that decidable equality can be derived; `JsonList` and `JsonObj` are plain
cons-lists of values and of key/value pairs (a Python dict in insertion
order; `json.loads` yields unique keys). -/

mutual

inductive Json where
  | null
  | bool (b : Bool)
  | num (n : Int)
  | str (s : String)
  | arr (items : JsonList)
  | obj (fields : JsonObj)
  deriving DecidableEq

inductive JsonList where
  | nil
  | cons (hd : Json) (tl : JsonList)
  deriving DecidableEq

inductive JsonObj where
  | nil
  | cons (key : String) (val : Json) (tl : JsonObj)
  deriving DecidableEq

end

/-- Python truthiness of a parsed JSON value: `bool(x)` is `False` exactly for
`None`, `False`, `0`, `""`, `[]` and `{}`. -/
def Json.truthy : Json → Bool
  | .null => false
  | .bool b => b
  | .num n => n != 0
  | .str s => s != ""
  | .arr .nil => false
  | .arr (.cons _ _) => true
  | .obj .nil => false
  | .obj (.cons _ _ _) => true

/-- Dictionary lookup, `d.get(k)`: the value stored at `k`, if any.  Keys of a
dict produced by `json.loads` are unique, so first match suffices. -/
def JsonObj.find (k : String) : JsonObj → Option Json
  | .nil => none
  | .cons key v tl => if key = k then some v else JsonObj.find k tl

/-- Python `k in d`. -/
def JsonObj.hasKey (o : JsonObj) (k : String) : Bool :=
  (o.find k).isSome

/-- Python `d[k] = v`: replace in place when the key exists, else append at the
end (dict insertion order). -/
def JsonObj.setKey (k : String) (v : Json) : JsonObj → JsonObj
  | .nil => .cons k v .nil
  | .cons key w tl =>
    if key = k then .cons key v tl else .cons key w (JsonObj.setKey k v tl)

/- ------------------------------------------------------------------
Python string primitives used by the script, implemented structurally over
character lists so that concrete instances reduce in the kernel. -/

/-- Whether the first list is an initial segment of the second. -/
def listBeginsWith : List Char → List Char → Bool
  | [], _ => true
  | _ :: _, [] => false
  | p :: ps, x :: xs => p = x && listBeginsWith ps xs

/-- Python `s.startswith(pat)`. -/
def pyStartsWith (s pat : String) : Bool :=
  listBeginsWith pat.toList s.toList

/-- Python `s.endswith(pat)`. -/
def pyEndsWith (s pat : String) : Bool :=
  listBeginsWith pat.toList.reverse s.toList.reverse

/-- Python `s.strip()`: remove leading and trailing whitespace. -/
def pyStrip (s : String) : String :=
  String.mk (((s.toList.dropWhile Char.isWhitespace).reverse.dropWhile
    Char.isWhitespace).reverse)

/-- Split a character list on a separator character; `os.path.basename` keeps
the part after the last `/`. -/
def splitOnChar (c : Char) : List Char → List (List Char)
  | [] => [[]]
  | x :: xs =>
    let r := splitOnChar c xs
    if x = c then [] :: r
    else
      match r with
      | [] => [[x]]
      | g :: gs => (x :: g) :: gs

/-- Python `os.path.basename(p)` for the forward-slash paths the script
builds with `os.path.join`. -/
def basename (p : String) : String :=
  String.mk ((splitOnChar '/' p.toList).getLastD [])

/- ------------------------------------------------------------------
Entry Parser (`parse_log_entry`) and the per-file reading loop inside
`read_all_entries`. -/

/-- Embeds `parse_log_entry` (read_last_log.py, lines 135-142): a blank or
whitespace-only line yields `None`; otherwise the line is handed to
`json.loads`, and a `JSONDecodeError` also yields `None`. -/
def parse_log_entry (loads : String → Option Json) (line : String) : Option Json :=
  if pyStrip line = "" then none else loads line

/-- One iteration of the per-line loop of `read_all_entries`
(lines 152-159).  `Except.ok none` = the line is skipped (parse failure or a
falsy parsed value, because of the `if entry:` truthiness test);
`Except.ok (some e)` = the normalized entry is appended;
`Except.error ()` = a `TypeError` escapes the loop body: a truthy non-dict
value (number, `True`, string, array) fails either the `"agent_name" not in
entry` test or the `entry[...] = ...` item assignments, and the surrounding
`try` aborts the rest of this file. -/
def processLine (loads : String → Option Json) (agentName fileBase line : String) :
    Except Unit (Option JsonObj) :=
  match parse_log_entry loads line with
  | none => Except.ok none
  | some e =>
    if e.truthy then
      match e with
      | .obj fields =>
        let withAgent :=
          if fields.hasKey "agent_name" then fields
          else fields.setKey "agent_name" (.str agentName)
        Except.ok (some (withAgent.setKey "_source_file" (.str fileBase)))
      | _ => Except.error ()
    else Except.ok none

/-- The entries one file contributes to `all_entries` (lines 150-161): lines
are processed in order; skipped lines contribute nothing; an exception keeps
the entries appended so far, prints an error and moves to the next file. -/
def readFileEntries (loads : String → Option Json) (agentName fileBase : String) :
    List String → List JsonObj
  | [] => []
  | line :: rest =>
    match processLine loads agentName fileBase line with
    | .error _ => []
    | .ok none => readFileEntries loads agentName fileBase rest
    | .ok (some e) => e :: readFileEntries loads agentName fileBase rest

/- ------------------------------------------------------------------
Timeline Merger: the sort key of `read_all_entries` (lines 163-172). -/

/-- A located log file handed to `read_all_entries`: full path, agent name and
the lines of its content. -/
abbrev LogFile := String × String × List String

/-- The concatenation, in file order, of the entries each file contributes —
the state of `all_entries` just before the final sort. -/
def concatEntries (loads : String → Option Json) (files : List LogFile) : List JsonObj :=
  files.flatMap (fun f => readFileEntries loads f.2.1 (basename f.1) f.2.2)

/-- Embeds `truncate` (lines 175-181); in Python `max_len` defaults to 500
and the callers pass 800 and 1200 explicitly.  `if not text` is Python
truthiness of a string, i.e. emptiness; `text[:max_len - 3]` keeps the first
`max_len - 3` characters. -/
def truncate (text : String) (max_len : Nat) : String :=
  if text = "" then ""
  else if text.length ≤ max_len then text
  else String.mk (text.toList.take (max_len - 3)) ++ "..."

/-- The two rendering shapes of `print_entry`. -/
inductive EventKind where
  | ModelQuery
  | PlainMessage
  deriving DecidableEq

/-- Embeds the branch condition of `print_entry` (line 222): the bordered
LLM-query block is used iff `entry.get("type") == "log"` and
`entry.get("source") == "LLM"`; every other entry is printed as a plain
one-line message (lines 238-241).  Python `==` against a string literal holds
only for an equal JSON string. -/
def print_entry_kind (e : JsonObj) : EventKind :=
  if e.find "type" = some (.str "log") ∧ e.find "source" = some (.str "LLM")
  then .ModelQuery else .PlainMessage

/-- Number of entries the Renderer lays out as `ModelQuery` blocks. -/
def model_query_count (es : List JsonObj) : Nat :=
  es.countP (fun e => decide (print_entry_kind e = .ModelQuery))

/-- Embeds the `llm_queries` count of the summary footer (line 349):
entries whose `source` field equals `"LLM"`, regardless of `type`. -/
def llm_query_count (es : List JsonObj) : Nat :=
  es.countP (fun e => decide (e.find "source" = some (.str "LLM")))

/-- Embeds the summary footer (line 351): total entry count and the
`llm_queries` count. -/
def summary_counts (es : List JsonObj) : Nat × Nat :=
  (es.length, llm_query_count es)

/-- A directory listing, or `none` for an absent directory. -/
abbrev Store := Option (List (String × Nat))

/-- Lower-case hexadecimal digit, the character class `[0-9a-f]` of
`UUID_PATTERN` (line 45). -/
def isLowerHexDigit (c : Char) : Bool :=
  (('0' ≤ c) && (c ≤ '9')) || (('a' ≤ c) && (c ≤ 'f'))

/-- Shape of position `i` of a canonical 8-4-4-4-12 hyphenated UUID. -/
def uuidCharOk (p : Nat × Char) : Bool :=
  if p.1 = 8 || p.1 = 13 || p.1 = 18 || p.1 = 23 then p.2 = '-'
  else isLowerHexDigit p.2

/-- Embeds `UUID_PATTERN.match(f)` plus `.group(1)` (lines 45, 89, 95): the
regex is anchored at the start of the filename, so it matches iff the first
36 characters form a canonical UUID, and the captured group is those 36
characters.  Nothing after them is constrained. -/
def uuid_match (f : String) : Option String :=
  let cs := f.toList.take 36
  if cs.length = 36 ∧ cs.enum.all uuidCharOk then some (String.mk cs) else none

/-- The body of the per-file loop of `find_agent_logs_for_uuid`
(lines 66-73): a listed file qualifies iff its name starts with
`uuid + "_"` and ends in `".jsonl"`; the agent name is the filename with
that initial segment and the 6-character extension cut off
(`f[len(pre):-6]`), and the full path joins the directory name. -/
def agentFileInfo (uuid : String) (fm : String × Nat) :
    Option ((String × String) × Nat) :=
  if pyStartsWith fm.1 (uuid ++ "_") && pyEndsWith fm.1 ".jsonl" then
    some (("agent_logs/" ++ fm.1,
      String.mk ((fm.1.toList.drop (uuid ++ "_").length).take
        ((fm.1.toList.drop (uuid ++ "_").length).length - 6))), fm.2)
  else none

/-- Embeds `find_agent_logs_for_uuid` (lines 58-77): collect the qualifying
files, sort them by modification time (Python `list.sort`, stable) and
return the (full path, agent name) pairs.  An absent directory yields
`[]`. -/
def find_agent_logs_for_uuid (store : Store) (uuid : String) : List (String × String) :=
  match store with
  | none => []
  | some listing =>
    ((listing.filterMap (agentFileInfo uuid)).mergeSort
      (fun a b => (a.2 ≤ b.2 : Bool))).map (·.1)

/-- Embeds `get_latest_uuid` (lines 80-97): scan the listing, keeping the
captured UUID of the `.jsonl` file with the greatest modification time; the
running maximum starts at `0` and is only beaten strictly
(`mtime > latest_mtime`).  An absent directory yields `None`. -/
def get_latest_uuid (store : Store) : Option String :=
  match store with
  | none => none
  | some listing =>
    (listing.foldl (fun acc fm =>
      match uuid_match fm.1 with
      | some u =>
        if pyEndsWith fm.1 ".jsonl" && decide (acc.2 < fm.2) then (some u, fm.2) else acc
      | none => acc) ((none : Option String), (0 : Nat))).1

/-- One `uuid_info` update of `list_available_uuids` (lines 113-114): on the
first file of a UUID the `defaultdict` supplies `mtime = 0, count = 0`, so the
stored pair becomes `(max 0 m, 1)`; later files update the stored pair in
place.  Iterating a Python dict follows insertion order, modelled by keeping
the association list in first-occurrence order. -/
def bumpUuidInfo (u : String) (m : Nat) : List (String × Nat × Nat) → List (String × Nat × Nat)
  | [] => [(u, max 0 m, 0 + 1)]
  | e :: rest =>
    if e.1 = u then (e.1, max e.2.1 m, e.2.2 + 1) :: rest
    else e :: bumpUuidInfo u m rest

/-- One iteration of the grouping loop of `list_available_uuids`
(lines 107-114): files whose name starts with a UUID and ends in `.jsonl`
update that UUID's stored pair; all other files are ignored. -/
def indexStep (acc : List (String × Nat × Nat)) (fm : String × Nat) :
    List (String × Nat × Nat) :=
  match uuid_match fm.1 with
  | some u => if pyEndsWith fm.1 ".jsonl" then bumpUuidInfo u fm.2 acc else acc
  | none => acc

/-- The grouping loop of `list_available_uuids` (lines 105-114) over a
directory listing. -/
def collectUuidInfo (listing : List (String × Nat)) : List (String × Nat × Nat) :=
  listing.foldl indexStep []

/-- Embeds `list_available_uuids` (lines 100-123): group the `.jsonl` files
whose name starts with a UUID by that UUID, recording the maximal
modification time and the file count, then sort newest first
(`sort(key=mtime, reverse=True)`, a stable descending sort;
`datetime.fromtimestamp` is strictly monotone, so sorting by the datetime
equals sorting by the raw mtime).  An absent directory yields `[]`. -/
def list_available_uuids (store : Store) : List (String × Nat × Nat) :=
  match store with
  | none => []
  | some listing =>
    (collectUuidInfo listing).mergeSort (fun a b => (b.2.1 ≤ a.2.1 : Bool))

/- ------------------------------------------------------------------
Reference definitions written from the specification's words, for the
refinement-style claims. -/

/-- The mtimes of the files of the store listing that the Conversation Index
attributes to the identifier `u`. -/
def matchingMtimes (listing : List (String × Nat)) (u : String) : List Nat :=
  listing.filterMap (fun fm =>
    if uuid_match fm.1 = some u ∧ pyEndsWith fm.1 ".jsonl" = true then some fm.2
    else none)

/- ------------------------------------------------------------------
Basic facts about the embedding, shared by several claims. -/

theorem length_strMk (l : List Char) : (String.mk l).length = l.length := rfl

theorem length_eq_zero_iff_empty (s : String) : s.length = 0 ↔ s = "" := by
  constructor
  · intro h
    cases s with
    | mk data =>
      cases data with
      | nil => rfl
      | cons c cs => simp [String.length] at h
  · intro h
    subst h
    rfl

/-- The branch condition of `print_entry`, as a proposition. -/
theorem print_entry_kind_modelQuery_iff (e : JsonObj) :
    print_entry_kind e = .ModelQuery ↔
      (e.find "type" = some (.str "log") ∧ e.find "source" = some (.str "LLM")) := by
  unfold print_entry_kind
  split
  · next h => simp [h]
  · next h => simp [h]

theorem truncate_of_le {text : String} {n : Nat} (h : text.length ≤ n) :
    truncate text n = text := by
  unfold truncate
  by_cases he : text = ""
  · rw [if_pos he, he]
  · rw [if_neg he, if_pos h]

theorem truncate_of_gt {text : String} {n : Nat} (h : n < text.length) :
    truncate text n = String.mk (text.toList.take (n - 3)) ++ "..." := by
  have h0 : text ≠ "" := by
    intro he
    rw [he] at h
    simp at h
  unfold truncate
  rw [if_neg h0, if_neg (not_le.mpr h)]

theorem toList_length (s : String) : s.toList.length = s.length := rfl

theorem truncate_length_of_gt {text : String} {n : Nat} (hn : 3 ≤ n)
    (h : n < text.length) : (truncate text n).length = n := by
  rw [truncate_of_gt h, String.length_append, length_strMk, List.length_take,
    toList_length]
  have h3 : ("..." : String).length = 3 := rfl
  rw [h3]
  omega

/-- C4: `truncate` leaves short text unchanged, otherwise keeps the first
`n - 3` characters and appends the 3-character ellipsis so that the result
has length exactly `n`; it is idempotent, its result never exceeds `n`
characters, and `truncate "hello world" 8 = "hello..."`. -/
theorem c4_truncate_law (text : String) (n : Nat) (hn : 3 ≤ n) :
    (text.length ≤ n → truncate text n = text)
    ∧ (n < text.length →
        (truncate text n).toList = text.toList.take (n - 3) ++ "...".toList
          ∧ (truncate text n).length = n)
    ∧ truncate (truncate text n) n = truncate text n
    ∧ (truncate text n).length ≤ n
    ∧ truncate "hello world" 8 = "hello..." := by
  refine ⟨fun h => truncate_of_le h, fun h => ⟨?_, truncate_length_of_gt hn h⟩,
    ?_, ?_, by decide⟩
  · rw [truncate_of_gt h]
    rfl
  · by_cases h : text.length ≤ n
    · rw [truncate_of_le h, truncate_of_le h]
    · exact truncate_of_le (le_of_eq (truncate_length_of_gt hn (not_le.mp h)))
  · by_cases h : text.length ≤ n
    · rw [truncate_of_le h]
      exact h
    · exact le_of_eq (truncate_length_of_gt hn (not_le.mp h))

/-- Witness for C4 at `n = 8`: a long text truncates to the spec's example
and a short text is returned unchanged. -/
theorem c4_truncate_law_witness :
    truncate "hello world" 8 = "hello..." ∧ truncate "hi" 8 = "hi" := by
  have h := c4_truncate_law "hello world" 8 (by decide)
  have h2 := c4_truncate_law "hi" 8 (by decide)
  exact ⟨h.2.2.2.2, h2.1 (by decide)⟩

/-- A record carrying both a prompt field and a response field but no
`type`/`source` marker pair. -/
def promptResponseOnly : JsonObj :=
  .cons "prompt" (.str "2+2?") (.cons "response" (.str "4") .nil)

/-- Counterexample to C1 as stated: this record carries both a prompt-like
and a response-like field, so the claim classifies it `ModelQuery`, but
`print_entry` renders it as a plain message, because
`entry.get("type") == "log" and entry.get("source") == "LLM"` is the only
condition the code tests. -/
theorem c1_counterexample :
    promptResponseOnly.hasKey "prompt" = true
    ∧ promptResponseOnly.hasKey "response" = true
    ∧ print_entry_kind promptResponseOnly = .PlainMessage := by decide

/-- C1 (amended): an entry is rendered as `ModelQuery` iff its `type` field
equals the marker `"log"` and its `source` field equals the sentinel
`"LLM"`; every other entry — whatever prompt/response fields it carries — is
rendered as `PlainMessage`. -/
theorem c1_model_query_classification (e : JsonObj) :
    (print_entry_kind e = .ModelQuery ↔
      (e.find "type" = some (.str "log") ∧ e.find "source" = some (.str "LLM")))
    ∧ (print_entry_kind e ≠ .ModelQuery → print_entry_kind e = .PlainMessage) := by
  refine ⟨print_entry_kind_modelQuery_iff e, fun h => ?_⟩
  cases hk : print_entry_kind e with
  | ModelQuery => exact absurd hk h
  | PlainMessage => rfl

/-- An entry whose `source` is the sentinel `"LLM"` but whose `type` is not
`"log"`. -/
def sourceOnlyLLM : JsonObj :=
  .cons "source" (.str "LLM") (.cons "message" (.str "routing to LLM") .nil)

/-- Counterexample to C6 as stated: on this timeline the footer prints an
LLM-query count of 1, yet the Renderer classifies no entry as `ModelQuery`
(the entry lacks `type == "log"`), so the printed count differs from the
number of `ModelQuery` entries. -/
theorem c6_counterexample :
    summary_counts [sourceOnlyLLM] = (1, 1)
    ∧ model_query_count [sourceOnlyLLM] = 0 := by decide

/-- C6 (amended): the footer reports the total number of entries and the
number of entries whose `source` field equals `"LLM"`; this counts every
entry the Renderer classifies as `ModelQuery`, but may also count plain
entries whose `source` is `"LLM"` without the `type == "log"` marker, so it
is only an upper bound on the `ModelQuery` count. -/
theorem c6_summary_footer (es : List JsonObj) :
    summary_counts es = (es.length, llm_query_count es)
    ∧ model_query_count es ≤ llm_query_count es := by
  refine ⟨rfl, List.countP_mono_left ?_⟩
  intro e _ h
  simp only [decide_eq_true_eq] at h ⊢
  exact ((print_entry_kind_modelQuery_iff e).mp h).2

/- ------------------------------------------------------------------
Entry Parser claims. -/

/-- A line whose processing appends nothing leaves the file's entry list
unchanged wherever it appears. -/
theorem readFileEntries_skip (loads : String → Option Json) (a f line : String)
    (h : processLine loads a f line = .ok none) (xs ys : List String) :
    readFileEntries loads a f (xs ++ line :: ys)
      = readFileEntries loads a f (xs ++ ys) := by
  induction xs with
  | nil => simp [readFileEntries, h]
  | cons x xs ih =>
    simp only [List.cons_append, readFileEntries]
    cases hpx : processLine loads a f x with
    | error e => rfl
    | ok o =>
      cases o with
      | none => exact ih
      | some e => exact congrArg (e :: ·) ih

/-- A line that parses to a non-empty JSON object; exactly these lines
contribute one entry each. -/
def isValidRecordLine (loads : String → Option Json) (line : String) : Bool :=
  match parse_log_entry loads line with
  | some (.obj (.cons _ _ _)) => true
  | _ => false

theorem processLine_of_valid {loads : String → Option Json} {line : String}
    (a f : String) (h : isValidRecordLine loads line = true) :
    ∃ e, processLine loads a f line = .ok (some e) := by
  unfold isValidRecordLine at h
  unfold processLine
  cases hp : parse_log_entry loads line with
  | none => rw [hp] at h; simp at h
  | some v =>
    rw [hp] at h
    cases v with
    | null => simp at h
    | bool b => simp at h
    | num n => simp at h
    | str s => simp at h
    | arr items => simp at h
    | obj fields =>
      cases fields with
      | nil => simp at h
      | cons k w tl => exact ⟨_, rfl⟩

theorem readFileEntries_length_of_valid (loads : String → Option Json)
    (a f : String) (lines : List String)
    (h : ∀ l ∈ lines, isValidRecordLine loads l = true) :
    (readFileEntries loads a f lines).length = lines.length := by
  induction lines with
  | nil => rfl
  | cons x xs ih =>
    obtain ⟨e, he⟩ := processLine_of_valid a f (h x (List.mem_cons_self x xs))
    simp [readFileEntries, he, ih (fun l hl => h l (List.mem_cons_of_mem x hl))]

/-- C3: a line that fails structural parsing contributes no entry and does
not disturb the processing of the remaining lines of its file nor of other
files; a file with one corrupt line among N valid record lines yields
exactly N entries. -/
theorem c3_malformed_line_skipped (loads : String → Option Json)
    (agentName fileBase bad : String) (xs ys : List String)
    (files1 files2 : List LogFile) (p : String)
    (hbad : parse_log_entry loads bad = none) :
    readFileEntries loads agentName fileBase (xs ++ bad :: ys)
        = readFileEntries loads agentName fileBase (xs ++ ys)
    ∧ concatEntries loads (files1 ++ (p, agentName, xs ++ bad :: ys) :: files2)
        = concatEntries loads (files1 ++ (p, agentName, xs ++ ys) :: files2)
    ∧ ((∀ l ∈ xs ++ ys, isValidRecordLine loads l = true) →
        (readFileEntries loads agentName fileBase (xs ++ bad :: ys)).length
          = (xs ++ ys).length) := by
  have hskip : ∀ fb, processLine loads agentName fb bad = .ok none := by
    intro fb
    unfold processLine
    rw [hbad]
  have h1 := readFileEntries_skip loads agentName fileBase bad (hskip fileBase) xs ys
  refine ⟨h1, ?_, fun hv => ?_⟩
  · unfold concatEntries
    simp only [List.flatMap_append, List.flatMap_cons]
    rw [readFileEntries_skip loads agentName (basename p) bad (hskip (basename p)) xs ys]
  · rw [h1, readFileEntries_length_of_valid loads agentName fileBase (xs ++ ys) hv]

/-- Records used to instantiate the `json.loads` parameter in witnesses. -/
def demoJson1 : Json :=
  .obj (.cons "timestamp" (.str "T1") (.cons "message" (.str "first") .nil))

/-- A second record, with a later timestamp string. -/
def demoJson2 : Json :=
  .obj (.cons "timestamp" (.str "T2") (.cons "message" (.str "second") .nil))

/-- A concrete stand-in for `json.loads`: it recognizes a few fixed line
texts and fails on everything else. -/
def demoLoads : String → Option Json :=
  fun s =>
    if s = "rec one" then some demoJson1
    else if s = "rec two" then some demoJson2
    else if s = "empty obj" then some (.obj .nil)
    else if s = "null rec" then some .null
    else none

/-- Witness for C3: one corrupt line among two valid record lines is skipped
and the file yields exactly two entries. -/
theorem c3_malformed_line_skipped_witness :
    readFileEntries demoLoads "pre" "u_pre.jsonl" (["rec one"] ++ "oops" :: ["rec two"])
        = readFileEntries demoLoads "pre" "u_pre.jsonl" (["rec one"] ++ ["rec two"])
    ∧ (readFileEntries demoLoads "pre" "u_pre.jsonl" (["rec one"] ++ "oops" :: ["rec two"])).length
        = (["rec one"] ++ ["rec two"]).length := by
  have h := c3_malformed_line_skipped demoLoads "pre" "u_pre.jsonl" "oops"
      ["rec one"] ["rec two"] [] [] "agent_logs/u_pre.jsonl" (by decide)
  exact ⟨h.1, h.2.2 (by decide)⟩

/-- C9: a line whose text parses to a falsy JSON value — the empty object,
`null`, `false`, `0`, or the empty string — is skipped by the `if entry:`
truthiness test exactly as a malformed line is: it contributes no entry and
leaves the rest of the processing unchanged, even though the empty object is
a well-formed record. -/
theorem c9_falsy_value_skipped (loads : String → Option Json)
    (agentName fileBase line : String) (v : Json)
    (hv : loads line = some v) (hf : v.truthy = false) (xs ys : List String) :
    processLine loads agentName fileBase line = .ok none
    ∧ readFileEntries loads agentName fileBase (xs ++ line :: ys)
        = readFileEntries loads agentName fileBase (xs ++ ys)
    ∧ (Json.obj .nil).truthy = false ∧ Json.null.truthy = false
    ∧ (Json.bool false).truthy = false ∧ (Json.num 0).truthy = false
    ∧ (Json.str "").truthy = false := by
  have hok : processLine loads agentName fileBase line = .ok none := by
    unfold processLine parse_log_entry
    by_cases hs : pyStrip line = ""
    · rw [if_pos hs]
    · rw [if_neg hs, hv]
      simp [hf]
  exact ⟨hok, readFileEntries_skip loads agentName fileBase line hok xs ys,
    rfl, rfl, rfl, by decide, rfl⟩

/-- Witness for C9 at the line parsing to the empty object. -/
theorem c9_falsy_value_skipped_witness :
    processLine demoLoads "pre" "u_pre.jsonl" "empty obj" = .ok none
    ∧ readFileEntries demoLoads "pre" "u_pre.jsonl" (["rec one"] ++ "empty obj" :: ["rec two"])
        = readFileEntries demoLoads "pre" "u_pre.jsonl" (["rec one"] ++ ["rec two"]) := by
  have h := c9_falsy_value_skipped demoLoads "pre" "u_pre.jsonl" "empty obj" (.obj .nil)
      (by decide) (by decide) ["rec one"] ["rec two"]
  exact ⟨h.1, h.2.1⟩

/- ------------------------------------------------------------------
Renderer claims: grouped mode. -/

/-- A canonical UUID in the all-zero form. -/
def demoUuid : String := "00000000-0000-0000-0000-000000000000"

/-- A consolidated-style log file name: the bare UUID plus the extension,
with no underscore separator and no producer name. -/
def demoUuidFile : String := demoUuid ++ ".jsonl"

/-- C10: `get_latest_uuid` accepts any `.jsonl` file whose name merely
begins with a canonical UUID — no underscore separator or producer suffix is
required — while `find_agent_logs_for_uuid` requires the
underscore-separated shape; hence on a store holding only the bare
`{uuid}.jsonl` the former reports that UUID while the latter returns no
files for it, so reading the latest conversation reports no log files even
though the store is non-empty. -/
theorem c10_locator_mismatch (f : String) (m : Nat) (u : String)
    (hu : uuid_match f = some u) (hj : pyEndsWith f ".jsonl" = true) (hm : 0 < m) :
    get_latest_uuid (some [(f, m)]) = some u
    ∧ get_latest_uuid (some [(demoUuidFile, 5)]) = some demoUuid
    ∧ find_agent_logs_for_uuid (some [(demoUuidFile, 5)]) demoUuid = [] := by
  refine ⟨?_, by decide, ?_⟩
  · unfold get_latest_uuid
    simp [hu, hj, hm]
  · have hfm : [(demoUuidFile, 5)].filterMap (agentFileInfo demoUuid) = [] := by decide
    simp [find_agent_logs_for_uuid, hfm]

/-- Witness for C10 at a store holding one underscore-free `.jsonl` file. -/
theorem c10_locator_mismatch_witness :
    get_latest_uuid (some [("11111111-1111-1111-1111-111111111111.jsonl", 3)])
      = some "11111111-1111-1111-1111-111111111111" := by
  have h := c10_locator_mismatch "11111111-1111-1111-1111-111111111111.jsonl" 3
    "11111111-1111-1111-1111-111111111111" (by decide) (by decide) (by decide)
  exact h.1

/- ------------------------------------------------------------------
Conversation Index claim. -/

/-- Lookup of the pair stored for one identifier in the grouping
accumulator. -/
def lookupInfo : List (String × Nat × Nat) → String → Option (Nat × Nat)
  | [], _ => none
  | e :: rest, u => if e.1 = u then some e.2 else lookupInfo rest u

/-- The effect a sequence of matching mtimes has on one stored pair. -/
def mergeInfo : Option (Nat × Nat) → List Nat → Option (Nat × Nat)
  | o, [] => o
  | none, m :: ms => mergeInfo (some (max 0 m, 0 + 1)) ms
  | some p, m :: ms => mergeInfo (some (max p.1 m, p.2 + 1)) ms

theorem lookupInfo_bump_self (u : String) (m : Nat)
    (acc : List (String × Nat × Nat)) :
    lookupInfo (bumpUuidInfo u m acc) u =
      some (match lookupInfo acc u with
        | none => (max 0 m, 0 + 1)
        | some p => (max p.1 m, p.2 + 1)) := by
  induction acc with
  | nil => simp [bumpUuidInfo, lookupInfo]
  | cons e rest ih =>
    by_cases he : e.1 = u
    · rw [bumpUuidInfo, if_pos he, lookupInfo, if_pos he, lookupInfo, if_pos he]
    · rw [bumpUuidInfo, if_neg he, lookupInfo, if_neg he, lookupInfo, if_neg he, ih]

theorem lookupInfo_bump_ne (u v : String) (m : Nat)
    (acc : List (String × Nat × Nat)) (h : v ≠ u) :
    lookupInfo (bumpUuidInfo v m acc) u = lookupInfo acc u := by
  induction acc with
  | nil => simp [bumpUuidInfo, lookupInfo, h]
  | cons e rest ih =>
    by_cases he : e.1 = v
    · have heu : ¬(e.1 = u) := fun hc => h (he ▸ hc)
      rw [bumpUuidInfo, if_pos he, lookupInfo, if_neg heu, lookupInfo, if_neg heu]
    · rw [bumpUuidInfo, if_neg he, lookupInfo, lookupInfo]
      by_cases heu : e.1 = u
      · rw [if_pos heu, if_pos heu]
      · rw [if_neg heu, if_neg heu, ih]

theorem matchingMtimes_cons_pos (fm : String × Nat) (rest : List (String × Nat))
    (u : String)
    (h : uuid_match fm.1 = some u ∧ pyEndsWith fm.1 ".jsonl" = true) :
    matchingMtimes (fm :: rest) u = fm.2 :: matchingMtimes rest u := by
  simp [matchingMtimes, List.filterMap_cons, h]

theorem matchingMtimes_cons_neg (fm : String × Nat) (rest : List (String × Nat))
    (u : String)
    (h : ¬(uuid_match fm.1 = some u ∧ pyEndsWith fm.1 ".jsonl" = true)) :
    matchingMtimes (fm :: rest) u = matchingMtimes rest u := by
  simp only [matchingMtimes, List.filterMap_cons, if_neg h]

theorem lookupInfo_foldl (listing : List (String × Nat)) :
    ∀ acc u, lookupInfo (listing.foldl indexStep acc) u
      = mergeInfo (lookupInfo acc u) (matchingMtimes listing u) := by
  induction listing with
  | nil => intro acc u; simp [matchingMtimes, mergeInfo]
  | cons fm rest ih =>
    intro acc u
    rw [List.foldl_cons]
    cases hum : uuid_match fm.1 with
    | none =>
      have hstep : indexStep acc fm = acc := by simp [indexStep, hum]
      rw [hstep, matchingMtimes_cons_neg fm rest u (by simp [hum]), ih]
    | some v =>
      cases hj : pyEndsWith fm.1 ".jsonl" with
      | false =>
        have hstep : indexStep acc fm = acc := by simp [indexStep, hum, hj]
        rw [hstep, matchingMtimes_cons_neg fm rest u (by simp [hj]), ih]
      | true =>
        have hstep : indexStep acc fm = bumpUuidInfo v fm.2 acc := by
          simp [indexStep, hum, hj]
        rw [hstep]
        by_cases hv : v = u
        · subst hv
          rw [matchingMtimes_cons_pos fm rest v ⟨hum, hj⟩, ih, lookupInfo_bump_self]
          cases hl : lookupInfo acc v with
          | none => rfl
          | some p => rfl
        · rw [matchingMtimes_cons_neg fm rest u
            (by simp [hum]; intro hc; exact absurd hc.symm (fun h2 => hv h2.symm)),
            ih, lookupInfo_bump_ne u v fm.2 acc hv]

theorem lookupInfo_collect (listing : List (String × Nat)) (u : String) :
    lookupInfo (collectUuidInfo listing) u
      = mergeInfo none (matchingMtimes listing u) :=
  lookupInfo_foldl listing [] u

theorem mergeInfo_some (ms : List Nat) :
    ∀ M c, mergeInfo (some (M, c)) ms = some (ms.foldl max M, c + ms.length) := by
  induction ms with
  | nil => intro M c; rfl
  | cons m ms ih =>
    intro M c
    show mergeInfo (some (max M m, c + 1)) ms = _
    rw [ih (max M m) (c + 1), List.foldl_cons, List.length_cons]
    have h2 : c + 1 + ms.length = c + (ms.length + 1) := by omega
    rw [h2]

theorem mergeInfo_none_eval (ms : List Nat) (h : ms ≠ []) :
    mergeInfo none ms = some (ms.foldl max 0, ms.length) := by
  cases ms with
  | nil => cases h rfl
  | cons m ms2 =>
    show mergeInfo (some (max 0 m, 0 + 1)) ms2 = _
    rw [mergeInfo_some ms2 (max 0 m) (0 + 1), List.foldl_cons, List.length_cons]
    have h2 : 0 + 1 + ms2.length = ms2.length + 1 := by omega
    rw [h2]

/-- The identifiers stored in the grouping accumulator. -/
def infoKeys (acc : List (String × Nat × Nat)) : List String :=
  acc.map (·.1)

theorem infoKeys_bump (u : String) (m : Nat) (acc : List (String × Nat × Nat)) :
    infoKeys (bumpUuidInfo u m acc)
      = if u ∈ infoKeys acc then infoKeys acc else infoKeys acc ++ [u] := by
  induction acc with
  | nil => simp [bumpUuidInfo, infoKeys]
  | cons e rest ih =>
    by_cases he : e.1 = u
    · rw [bumpUuidInfo, if_pos he]
      have hm : u ∈ infoKeys (e :: rest) := by
        simp [infoKeys, List.mem_cons]
        exact Or.inl he.symm
      rw [if_pos hm]
      simp [infoKeys]
    · rw [bumpUuidInfo, if_neg he]
      have hne : ¬(u = e.1) := fun hc => he hc.symm
      simp only [infoKeys, List.map_cons] at ih ⊢
      rw [ih]
      by_cases hu : u ∈ rest.map (·.1)
      · rw [if_pos hu, if_pos (by simp [List.mem_cons, hu])]
      · rw [if_neg hu, if_neg (by simp [List.mem_cons, hne, hu])]
        simp

theorem nodup_indexStep (acc : List (String × Nat × Nat)) (fm : String × Nat)
    (h : (infoKeys acc).Nodup) : (infoKeys (indexStep acc fm)).Nodup := by
  unfold indexStep
  cases uuid_match fm.1 with
  | none => exact h
  | some u =>
    cases pyEndsWith fm.1 ".jsonl" with
    | false => exact h
    | true =>
      show (infoKeys (bumpUuidInfo u fm.2 acc)).Nodup
      rw [infoKeys_bump]
      by_cases hu : u ∈ infoKeys acc
      · rw [if_pos hu]; exact h
      · rw [if_neg hu]
        rw [List.nodup_append]
        exact ⟨h, List.nodup_singleton u, by simp [List.disjoint_singleton, hu]⟩

theorem nodup_collect (listing : List (String × Nat)) :
    (infoKeys (collectUuidInfo listing)).Nodup := by
  have hgen : ∀ acc, (infoKeys acc).Nodup →
      (infoKeys (listing.foldl indexStep acc)).Nodup := by
    induction listing with
    | nil => intro acc hacc; exact hacc
    | cons fm rest ih =>
      intro acc hacc
      rw [List.foldl_cons]
      exact ih (indexStep acc fm) (nodup_indexStep acc fm hacc)
  exact hgen [] (by simp [infoKeys])

theorem mem_iff_lookupInfo (acc : List (String × Nat × Nat))
    (hnd : (infoKeys acc).Nodup) (u : String) (p : Nat × Nat) :
    (u, p) ∈ acc ↔ lookupInfo acc u = some p := by
  induction acc with
  | nil => simp [lookupInfo]
  | cons e rest ih =>
    have hnd2 : (infoKeys rest).Nodup ∧ e.1 ∉ infoKeys rest := by
      simp only [infoKeys, List.map_cons, List.nodup_cons] at hnd
      exact ⟨hnd.2, hnd.1⟩
    by_cases he : e.1 = u
    · rw [lookupInfo, if_pos he, List.mem_cons]
      constructor
      · intro hm
        rcases hm with hm | hm
        · rw [← hm]
        · exfalso
          have : u ∈ infoKeys rest := by
            simp only [infoKeys, List.mem_map]
            exact ⟨(u, p), hm, rfl⟩
          exact hnd2.2 (he ▸ this)
      · intro hl
        left
        have hp : e.2 = p := Option.some.inj hl
        calc (u, p) = (e.1, e.2) := by rw [he, hp]
        _ = e := rfl
    · rw [lookupInfo, if_neg he, List.mem_cons]
      constructor
      · intro hm
        rcases hm with hm | hm
        · exact absurd (congrArg Prod.fst hm).symm he
        · exact (ih hnd2.1).mp hm
      · intro hl
        exact Or.inr ((ih hnd2.1).mpr hl)

theorem descLE_trans : ∀ a b c : String × Nat × Nat,
    (b.2.1 ≤ a.2.1 : Bool) = true → (c.2.1 ≤ b.2.1 : Bool) = true →
    (c.2.1 ≤ a.2.1 : Bool) = true := by
  intro a b c hab hbc
  simp only [decide_eq_true_eq] at hab hbc ⊢
  omega

theorem descLE_total : ∀ a b : String × Nat × Nat,
    ((b.2.1 ≤ a.2.1 : Bool) || (a.2.1 ≤ b.2.1 : Bool)) = true := by
  intro a b
  simp only [Bool.or_eq_true, decide_eq_true_eq]
  omega

/-- C8: `list_available_uuids` returns the empty sequence, not an error, on
an absent or empty store; its output is sorted by latest activity
descending; it holds exactly one triple per identifier that owns at least
one matching file; and that triple records the maximum modification time
and the number of that identifier's files. -/
theorem c8_list_conversations (listing : List (String × Nat)) (u : String)
    (M c : Nat) :
    list_available_uuids none = []
    ∧ list_available_uuids (some []) = []
    ∧ List.Pairwise (fun a b => b.2.1 ≤ a.2.1) (list_available_uuids (some listing))
    ∧ ((list_available_uuids (some listing)).map (·.1)).Nodup
    ∧ ((u, M, c) ∈ list_available_uuids (some listing) ↔
        (matchingMtimes listing u ≠ []
          ∧ M = (matchingMtimes listing u).foldl max 0
          ∧ c = (matchingMtimes listing u).length)) := by
  have hperm := List.mergeSort_perm (collectUuidInfo listing)
    (fun a b => (b.2.1 ≤ a.2.1 : Bool))
  refine ⟨rfl, by simp [list_available_uuids, collectUuidInfo], ?_, ?_, ?_⟩
  · have hsor : List.Pairwise (fun a b => (b.2.1 ≤ a.2.1 : Bool) = true)
        (list_available_uuids (some listing)) :=
      List.sorted_mergeSort descLE_trans descLE_total (collectUuidInfo listing)
    exact hsor.imp (fun h => of_decide_eq_true h)
  · have hp2 : ((list_available_uuids (some listing)).map (·.1)).Perm
        (infoKeys (collectUuidInfo listing)) := hperm.map (·.1)
    exact hp2.nodup_iff.mpr (nodup_collect listing)
  · have hmem : (u, M, c) ∈ list_available_uuids (some listing) ↔
        (u, M, c) ∈ collectUuidInfo listing := hperm.mem_iff
    rw [hmem, mem_iff_lookupInfo _ (nodup_collect listing), lookupInfo_collect]
    cases hms : matchingMtimes listing u with
    | nil => simp [mergeInfo]
    | cons m ms =>
      rw [mergeInfo_none_eval _ (by simp)]
      constructor
      · intro h
        have h2 := Option.some.inj h
        refine ⟨by simp, ?_, ?_⟩
        · exact (congrArg Prod.fst h2).symm
        · exact (congrArg Prod.snd h2).symm
      · rintro ⟨-, rfl, rfl⟩
        rfl

/-- Witness for C8: on a two-file store for one identifier the index
reports that identifier once, with the larger mtime and a file count of
two. -/
theorem c8_list_conversations_witness :
    ("22222222-2222-2222-2222-222222222222", 7, 2)
      ∈ list_available_uuids (some
        [("22222222-2222-2222-2222-222222222222_pre.jsonl", 7),
         ("22222222-2222-2222-2222-222222222222_gen.jsonl", 4)]) := by
  have h := c8_list_conversations
    [("22222222-2222-2222-2222-222222222222_pre.jsonl", 7),
     ("22222222-2222-2222-2222-222222222222_gen.jsonl", 4)]
    "22222222-2222-2222-2222-222222222222" 7 2
  exact h.2.2.2.2.mpr ⟨by decide, by decide, by decide⟩

end ReadLastLog
